import Mathlib

/-!
Verification of the TSDataset time-series container
(`etna/datasets/tsdataset.py`).

Modelling conventions, used throughout:

* Timestamps are integers counted in units of the dataset frequency:
  `pd.date_range(start, periods=n, freq)` is an arithmetic progression with
  step one frequency unit, so a timestamp is the number of frequency periods
  since an arbitrary origin.
* Missing values (`NaN` / `NaT`) are `Option.none`; numeric cell values are
  rationals.
* A wide table's column labels are `(segment, feature)` pairs of strings.
-/

namespace Etna

/-- Arithmetic progression of `n` timestamps starting at `a` with step one
frequency unit: the model of `pd.date_range(a, periods=n, freq)`. -/
def rangeInt (a : Int) (n : Nat) : List Int :=
  (List.range n).map (fun (i : Nat) => a + (i : Int))

/-- Model of `pandas.Index.min()`; `none` on an empty index (pandas gives NaT). -/
def idxMin (l : List Int) : Option Int :=
  l.foldl (fun acc t => match acc with | none => some t | some m => some (min m t)) none

/-- Model of `pandas.Index.max()`; `none` on an empty index (pandas gives NaT). -/
def idxMax (l : List Int) : Option Int :=
  l.foldl (fun acc t => match acc with | none => some t | some m => some (max m t)) none

/-- Model of `DataFrame.asfreq(freq)` acting on the timestamp index (done by
the `TSDataset` constructor): reindex onto the regular grid
`date_range(index.min(), index.max(), freq)`, i.e. every period between the
extremes; gaps become all-NaN rows.  An empty index stays empty. -/
def asfreq (l : List Int) : List Int :=
  match idxMin l, idxMax l with
  | some a, some b => rangeInt a (b - a + 1).toNat
  | _, _ => []

/-- Model of `pd.date_range(start=s, periods=p, freq=freq, closed="right")`:
the progression of `p` points with the left endpoint removed. -/
def dateRangeRightClosed (s : Int) (p : Nat) : List Int := (rangeInt s p).drop 1

/-- Timestamp index produced by `TSDataset.make_future(future_steps,
transforms=(), tail_steps)` with an empty transform sequence, following the
source line by line: `future_dates` is `date_range(df.index.max(),
periods=future_steps + 1, closed="right")`; `raw_df` is reindexed onto
`raw_df.index.append(future_dates)` (the class keeps `df.index = raw_df.index`,
so a single `index` argument stands for both); constructing the intermediate
`TSDataset` applies `asfreq`; finally `df.tail(future_steps + tail_steps)`
keeps the trailing rows.  An empty index would make `date_range` start from
NaT; that degenerate case is modelled as an empty result. -/
def makeFutureIndex (index : List Int) (futureSteps tailSteps : Nat) : List Int :=
  match idxMax index with
  | none => []
  | some m =>
    let futureDates := dateRangeRightClosed m (futureSteps + 1)
    let newIndex := index ++ futureDates
    let inner := asfreq newIndex
    inner.drop (inner.length - (futureSteps + tailSteps))

/-- One row of the sub-table selected by the three-part indexing
`ts[time, segment, feature]`: the row label and the selected cell values in
column order (`none` is NaN). -/
abbrev SelectedRow := Int × List (Option ℚ)

/-- Model of `DataFrame.first_valid_index()` on the selection: the label of
the first row holding at least one non-null value, `None` when there is none. -/
def firstValidIndex (rows : List SelectedRow) : Option Int :=
  (rows.find? (fun r => r.2.any (fun v => v.isSome))).map (fun r => r.1)

/-- Model of the trimming tail of `TSDataset.__getitem__`: after the `.loc`
selection the source runs `df = df.loc[df.first_valid_index():]`.  When no
value is valid, `first_valid_index()` is `None` and `df.loc[None:]` is the
whole frame; otherwise rows strictly before the first valid label are removed
(the index is sorted, so `.loc[t0:]` keeps the labels at or after `t0`). -/
def getitemTrim (rows : List SelectedRow) : List SelectedRow :=
  match firstValidIndex rows with
  | none => rows
  | some t0 => rows.dropWhile (fun r => decide (r.1 < t0))

/-- Per-segment data seen by `TSDataset._check_regressors`: the segment name,
the validity profile of its `target` series (`(timestamp, non-null?)` in index
order), and the row-validity profile of its regressor sub-table
(`df_regressors[segment]`), where a row is valid when any regressor column
holds a non-null value, matching `DataFrame.first_valid_index` /
`last_valid_index` on a frame. -/
structure SegmentSeries where
  name : String
  target : List (Int × Bool)
  exog : List (Int × Bool)

/-- Model of `Series.first_valid_index()`: the label of the first valid row. -/
def firstValid (s : List (Int × Bool)) : Option Int :=
  (s.find? (fun r => r.2)).map (fun r => r.1)

/-- Model of `Series.last_valid_index()`: the label of the last valid row. -/
def lastValid (s : List (Int × Bool)) : Option Int := firstValid s.reverse

/-- Strict comparison under pandas NaT semantics: the source replaces a `None`
valid-index by `pd.NaT`, and every comparison against NaT is false. -/
def natLtOpt (a b : Option Int) : Bool :=
  match a, b with
  | some x, some y => decide (x < y)
  | _, _ => false

/-- Non-strict `a >= b` under pandas NaT semantics (false when either side is
NaT). -/
def natGeOpt (a b : Option Int) : Bool :=
  match a, b with
  | some x, some y => decide (y ≤ x)
  | _, _ => false

/-- Errors raised by `TSDataset._check_regressors`; each message interpolates
the offending segment name and bound. -/
inductive RegressorError
  | startsTooLate (segment : String)
  | endsTooEarly (segment : String)
deriving DecidableEq

/-- Model of the loop body of `TSDataset._check_regressors` for one segment:
raise when `target_min < exog_series_min`, then when
`target_max >= exog_series_max` (note the non-strict comparison in the
second test: regressors must extend strictly past the target). -/
def checkRegressorsSegment (sd : SegmentSeries) : Except RegressorError Unit :=
  if natLtOpt (firstValid sd.target) (firstValid sd.exog) then
    Except.error (RegressorError.startsTooLate sd.name)
  else if natGeOpt (lastValid sd.target) (lastValid sd.exog) then
    Except.error (RegressorError.endsTooEarly sd.name)
  else Except.ok ()

/-- Sequential per-segment loop of `TSDataset._check_regressors`; the first
violation raises. -/
def checkRegressorsList : List SegmentSeries → Except RegressorError Unit
  | [] => Except.ok ()
  | sd :: rest =>
    match checkRegressorsSegment sd with
    | Except.ok _ => checkRegressorsList rest
    | Except.error e => Except.error e

/-- Model of `TSDataset._check_regressors`: with no regressor columns
(`df_regressors.shape[1] == 0`) the check returns immediately, otherwise every
segment is checked in order. -/
def checkRegressors (hasRegressorColumns : Bool) (segments : List SegmentSeries) :
    Except RegressorError Unit :=
  if hasRegressorColumns then checkRegressorsList segments else Except.ok ()

/-- Concrete segment used to refute C2 as stated: target and regressors are
both valid exactly on the two timestamps 0 and 1, so the regressors start no
later and end no earlier than the target. -/
def tightSegment : SegmentSeries :=
  { name := "segment_a"
    target := [(0, true), (1, true)]
    exog := [(0, true), (1, true)] }

/-- Lexicographic order on `(segment, feature)` column labels; the order used
by `sort_index(axis=1, level=("segment", "feature"))`. -/
def pairLe (a b : String × String) : Prop :=
  a.1 < b.1 ∨ (a.1 = b.1 ∧ a.2 ≤ b.2)

instance : DecidableRel pairLe := fun a b =>
  inferInstanceAs (Decidable (a.1 < b.1 ∨ (a.1 = b.1 ∧ a.2 ≤ b.2)))

instance : IsTotal (String × String) pairLe where
  total a b := by
    rcases lt_trichotomy a.1 b.1 with h | h | h
    · exact Or.inl (Or.inl h)
    · rcases le_total a.2 b.2 with h2 | h2
      · exact Or.inl (Or.inr ⟨h, h2⟩)
      · exact Or.inr (Or.inr ⟨h.symm, h2⟩)
    · exact Or.inr (Or.inl h)

instance : IsTrans (String × String) pairLe where
  trans a b c hab hbc := by
    rcases hab with h1 | ⟨h1, h1'⟩ <;> rcases hbc with h2 | ⟨h2, h2'⟩
    · exact Or.inl (lt_trans h1 h2)
    · exact Or.inl (h2 ▸ h1)
    · exact Or.inl (h1 ▸ h2)
    · exact Or.inr ⟨h1.trans h2, le_trans h1' h2'⟩

instance : IsAntisymm (String × String) pairLe where
  antisymm a b hab hba := by
    rcases hab with h1 | ⟨h1, h1'⟩
    · rcases hba with h2 | ⟨h2, h2'⟩
      · exact absurd h2 (lt_asymm h1)
      · exact absurd h1 (h2 ▸ lt_irrefl b.1)
    · rcases hba with h2 | ⟨h2, h2'⟩
      · exact absurd h2 (h1 ▸ lt_irrefl a.1)
      · exact Prod.ext h1 (le_antisymm h1' h2')

/-- Model of `DataFrame.sort_index(axis=1, level=("segment", "feature"))`
acting on the column labels. -/
def colSort (cols : List (String × String)) : List (String × String) :=
  List.insertionSort pairLe cols

/-- Columns of the working table after `TSDataset.__init__`: the raw columns,
merged with the exogenous columns when an exogenous table at the same
hierarchy level is supplied (`_merge_exog` itself sorts), then the final
`self.df.sort_index(axis=1, level=("segment", "feature"))`. -/
def constructorCols (rawCols : List (String × String))
    (exogCols : Option (List (String × String))) : List (String × String) :=
  match exogCols with
  | some e => colSort (colSort (rawCols ++ e))
  | none => colSort rawCols

/-- Columns produced by `TSDataset._merge_exog`:
`pd.concat((df, self.df_exog), axis=1)...sort_index(axis=1, level=(0, 1))`. -/
def mergeExogCols (dfCols exogCols : List (String × String)) : List (String × String) :=
  colSort (dfCols ++ exogCols)

/-- Columns after `TSDataset.add_columns_from_pandas`:
`pd.concat((self.df, df_update[...]), axis=1).sort_index(axis=1)`. -/
def addColumnsFromPandasCols (dfCols updateCols : List (String × String)) :
    List (String × String) :=
  colSort (dfCols ++ updateCols)

/-- Columns after `TSDataset.add_target_components`:
`pd.concat((self.df, target_components_df), axis=1).loc[...]
.sort_index(axis=1, level=("segment", "feature"))`. -/
def addTargetComponentsCols (dfCols componentCols : List (String × String)) :
    List (String × String) :=
  colSort (dfCols ++ componentCols)

/-- Columns of the dataset returned by `TSDataset.make_future` with an empty
transform sequence: the raw columns (reindexing keeps columns), merged with
the exogenous columns when present at the same level, then the drops of the
target-component features (`self.target_components_names`) and of the
target-quantile features (`self.target_quantiles_names`, the features matching
the quantile naming pattern), and finally the sorts performed by
`future_dataset.sort_index(axis=1, level=(0, 1))` and the `TSDataset`
constructor.  The plain `target` column is never dropped. -/
def makeFutureCols (rawCols : List (String × String))
    (exogCols : Option (List (String × String)))
    (componentNames quantileNames : List String) : List (String × String) :=
  let merged := match exogCols with
    | some e => mergeExogCols rawCols e
    | none => rawCols
  let noComponents := merged.filter (fun c => !(componentNames.contains c.2))
  let noQuantiles := noComponents.filter (fun c => !(quantileNames.contains c.2))
  colSort noQuantiles

/-- Errors raised inside `TSDataset._find_all_borders` and the pandas lookups
it performs. -/
inductive BorderError
  | testSizeTooBig   -- ValueError: test_size is ..., but only ... available
  | atLeastOneNeeded -- ValueError: at least one of train_end, test_start or test_size
  | testBeforeTrain  -- ValueError: the beginning of the test goes before the end of the train
  | keyError         -- Index.get_loc on a label missing from the index
  | indexError       -- positional lookup outside the index
  | emptyIndex       -- degenerate min/max of an empty index (NaT propagation)
deriving DecidableEq

/-- Warnings emitted by `_find_all_borders` / `train_test_split`. -/
inductive BorderWarning
  | testSizeIgnored  -- test_size, test_start and test_end given at the same time
  | beyondMax        -- train_test_split: resolved test_end past the last timestamp
  | beforeMin        -- train_test_split: resolved train_start before the first timestamp
deriving DecidableEq

/-- Model of `pandas.Index.get_loc(t)`: the position of the label, KeyError
when absent (the index is unique after `asfreq`). -/
def getLoc (index : List Int) (t : Int) : Except BorderError Nat :=
  match index.findIdx? (fun x => x == t) with
  | some i => Except.ok i
  | none => Except.error BorderError.keyError

/-- Model of `pandas.Index[i]` for a possibly negative position: python-style
negative indexing wraps once from the end, anything else is an IndexError. -/
def iget (l : List Int) (i : Int) : Except BorderError Int :=
  let j : Int := if i < 0 then (l.length : Int) + i else i
  if j < 0 then Except.error BorderError.indexError
  else
    match l.get? j.toNat with
    | some x => Except.ok x
    | none => Except.error BorderError.indexError

/-- First stage of `TSDataset._find_all_borders`: resolve `test_end`; returns
the possibly updated `test_start` (the source reassigns `test_start` in the
`test_size and train_end` branch) together with `test_end_defined`. -/
def resolveTestEnd (index : List Int) (trainEnd testStart testEnd : Option Int)
    (testSize : Option Nat) : Except BorderError (Option Int × Int) :=
  match testEnd with
  | some te => Except.ok (testStart, te)
  | none =>
    match testStart, testSize with
    | some ts, some sz =>
      (match getLoc index ts with
       | Except.error e => Except.error e
       | Except.ok i =>
         if index.length < i + sz then Except.error BorderError.testSizeTooBig
         else
           match index.get? (i + sz) with
           | some v => Except.ok (some ts, v)
           | none => Except.error BorderError.indexError)
    | _, _ =>
      match testSize, trainEnd with
      | some sz, some tre =>
        (match getLoc index tre with
         | Except.error e => Except.error e
         | Except.ok i =>
           match index.get? (i + 1), index.get? (i + sz) with
           | some ts1, some tev => Except.ok (some ts1, tev)
           | _, _ => Except.error BorderError.indexError)
      | _, _ =>
        match idxMax index with
        | some m => Except.ok (testStart, m)
        | none => Except.error BorderError.emptyIndex

/-- Resolution of `train_start`: the first index timestamp when not given. -/
def resolveTrainStart (index : List Int) (trainStart : Option Int) :
    Except BorderError Int :=
  match trainStart with
  | some t => Except.ok t
  | none =>
    match idxMin index with
    | some m => Except.ok m
    | none => Except.error BorderError.emptyIndex

/-- Branch of `_find_all_borders` for `test_size is None`: resolve
`train_end_defined` then `test_start_defined` from one another.  Both being
`None` is unreachable (the at-least-one guard fired before; `get_loc(None)`
would raise), modelled as the KeyError it would produce. -/
def resolveNoSize (index : List Int) (trainEnd testStart1 : Option Int) :
    Except BorderError (Int × Int) :=
  match trainEnd, testStart1 with
  | some tre, some ts => Except.ok (tre, ts)
  | none, some ts =>
    (match getLoc index ts with
     | Except.error e => Except.error e
     | Except.ok i =>
       match iget index ((i : Int) - 1) with
       | Except.error e => Except.error e
       | Except.ok tre => Except.ok (tre, ts))
  | some tre, none =>
    (match getLoc index tre with
     | Except.error e => Except.error e
     | Except.ok i =>
       match index.get? (i + 1) with
       | some ts => Except.ok (tre, ts)
       | none => Except.error BorderError.indexError)
  | none, none => Except.error BorderError.keyError

/-- Branch of `_find_all_borders` for `test_size is not None`: resolve
`test_start_defined` (from `test_end_defined` when not given), then
`train_end_defined` (the position just before `test_start_defined`). -/
def resolveWithSize (index : List Int) (trainEnd testStart1 : Option Int)
    (sz : Nat) (testEndDefined : Int) : Except BorderError (Int × Int) :=
  match testStart1 with
  | some ts =>
    (match trainEnd with
     | some tre => Except.ok (tre, ts)
     | none =>
       match getLoc index ts with
       | Except.error e => Except.error e
       | Except.ok i =>
         match iget index ((i : Int) - 1) with
         | Except.error e => Except.error e
         | Except.ok tre => Except.ok (tre, ts))
  | none =>
    (match getLoc index testEndDefined with
     | Except.error e => Except.error e
     | Except.ok i =>
       match iget index ((i : Int) - sz + 1) with
       | Except.error e => Except.error e
       | Except.ok ts =>
         match trainEnd with
         | some tre => Except.ok (tre, ts)
         | none =>
           match getLoc index ts with
           | Except.error e => Except.error e
           | Except.ok j =>
             match iget index ((j : Int) - 1) with
             | Except.error e => Except.error e
             | Except.ok tre => Except.ok (tre, ts))

/-- Model of `TSDataset._find_all_borders`: produce the four concrete border
timestamps `(train_start, train_end, test_start, test_end)` together with the
warnings emitted on the way, or the error raised. -/
def findAllBorders (index : List Int) (trainStart trainEnd testStart testEnd : Option Int)
    (testSize : Option Nat) :
    Except BorderError ((Int × Int × Int × Int) × List BorderWarning) :=
  let warns :=
    if testEnd.isSome && testStart.isSome && testSize.isSome then
      [BorderWarning.testSizeIgnored]
    else []
  match resolveTestEnd index trainEnd testStart testEnd testSize with
  | Except.error e => Except.error e
  | Except.ok (testStart1, testEndDefined) =>
    match resolveTrainStart index trainStart with
    | Except.error e => Except.error e
    | Except.ok trainStartDefined =>
      if trainEnd.isNone && testStart1.isNone && testSize.isNone then
        Except.error BorderError.atLeastOneNeeded
      else
        match
          (match testSize with
           | none => resolveNoSize index trainEnd testStart1
           | some sz => resolveWithSize index trainEnd testStart1 sz testEndDefined) with
        | Except.error e => Except.error e
        | Except.ok (trainEndDefined, testStartDefined) =>
          if testStartDefined < trainEndDefined then
            Except.error BorderError.testBeforeTrain
          else
            Except.ok ((trainStartDefined, trainEndDefined, testStartDefined, testEndDefined),
              warns)

/-- Model of label slicing `df[lo:hi]` on the sorted timestamp index: both
endpoints inclusive. -/
def sliceLoc (index : List Int) (lo hi : Int) : List Int :=
  index.filter (fun t => decide (lo ≤ t) && decide (t ≤ hi))

/-- Model of `TSDataset.train_test_split` at the level of timestamp indices:
resolve the borders, emit the out-of-range warnings (`test_end` past the last
timestamp, `train_start` before the first), and slice the index for the train
and test datasets. -/
def trainTestSplitIndex (index : List Int)
    (trainStart trainEnd testStart testEnd : Option Int) (testSize : Option Nat) :
    Except BorderError ((List Int × List Int) × List BorderWarning) :=
  match findAllBorders index trainStart trainEnd testStart testEnd testSize with
  | Except.error e => Except.error e
  | Except.ok ((a, b, c, d), ws) =>
    let ws1 := ws ++ (match idxMax index with
      | some m => if m < d then [BorderWarning.beyondMax] else []
      | none => [])
    let ws2 := ws1 ++ (match idxMin index with
      | some m => if a < m then [BorderWarning.beforeMin] else []
      | none => [])
    Except.ok ((sliceLoc index a b, sliceLoc index c d), ws2)

/-- State seen by `TSDataset.inverse_transform`: the recorded target-component
names plus an abstract payload standing for the rest of the working table,
which opaque transforms may mutate arbitrarily. -/
structure InvState where
  componentNames : List String
  payload : Int
deriving DecidableEq

/-- Observable events of `TSDataset.inverse_transform`, in execution order:
the initial `drop_target_components`, each `transform.inverse_transform`
invocation (indexed by its position in the reversed chain; the logging call
precedes the invocation, so a raising step is still recorded), and the final
re-derivation and re-attachment of the components. -/
inductive InvEvent
  | dropComponents
  | inverseApplied (position : Nat)
  | restoreComponents
deriving DecidableEq

/-- The `try` body of `TSDataset.inverse_transform`: apply each inverse
transform in the (already reversed) order; a raising transform stops the loop,
the state keeps its last value and the exception is recorded. -/
def runInverseChain (steps : List (InvState → Except String InvState)) (s : InvState)
    (pos : Nat) : InvState × Option String × List InvEvent :=
  match steps with
  | [] => (s, none, [])
  | f :: rest =>
    match f s with
    | Except.ok s1 =>
      let r := runInverseChain rest s1 (pos + 1)
      (r.1, r.2.1, InvEvent.inverseApplied pos :: r.2.2)
    | Except.error e => (s, some e, [InvEvent.inverseApplied pos])

/-- Modelled from the spec: `etna.datasets.utils.inverse_transform_target_components`
is not under `src/`; per the spec it re-derives the component columns from the
inverse-transformed target keeping component proportions, and
`TSDataset._inverse_transform_target_components` re-attaches them through
`add_target_components`, which restores the recorded component-name tuple.
Only that restoration of the saved names is relevant to the claim. -/
def restoreComponents (savedNames : List String) (s : InvState) : InvState :=
  { s with componentNames := savedNames }

/-- Model of `TSDataset.inverse_transform`: when components are present, save
and drop them, run the reversed chain inside `try`, and in `finally` restore
the components exactly once — whether or not a step raised.  The result is
the final state, the propagated exception if any, and the event trace. -/
def inverseTransform (transforms : List (InvState → Except String InvState))
    (s : InvState) : InvState × Option String × List InvEvent :=
  if s.componentNames.isEmpty then runInverseChain transforms.reverse s 0
  else
    let saved := s.componentNames
    let s0 : InvState := { s with componentNames := [] }
    let r := runInverseChain transforms.reverse s0 0
    (restoreComponents saved r.1, r.2.1,
      InvEvent.dropComponents :: r.2.2 ++ [InvEvent.restoreComponents])

/-- A transform chain whose single inverse raises, used as the C7 witness. -/
def invFailingChain : List (InvState → Except String InvState) :=
  [fun _ => Except.error "inverse failed"]

/-- Initial state with one recorded component, used as the C7 witness. -/
def invInitialState : InvState :=
  { componentNames := ["component_a"], payload := 0 }

/-- Sort and deduplicate, the canonical form pandas produces for a pivoted
index or column level (`pivot` sorts the unique labels). -/
def sortDedup {α : Type} [LinearOrder α] [DecidableEq α] (l : List α) : List α :=
  (List.insertionSort (fun a b => a ≤ b) l).dedup

/-- One row of a long-form table: `timestamp`, `segment`, and the feature
cells as a name-value association (one entry per feature column). -/
structure LongRow where
  timestamp : Int
  segment : String
  vals : List (String × Option ℚ)
deriving DecidableEq

/-- A long-form table: the feature column names (everything except
`timestamp` and `segment`) and the rows. -/
structure LongDF where
  features : List String
  rows : List LongRow
deriving DecidableEq

/-- Cell lookup in a long row by feature column name. -/
def lookupVal (vals : List (String × Option ℚ)) (f : String) : Option ℚ :=
  match vals.find? (fun p => p.1 == f) with
  | some p => p.2
  | none => none

/-- A wide table in ETNA format: sorted unique timestamp index, sorted unique
segment labels, sorted unique feature labels (`pivot` produces the full
segment × feature product as columns), and the cell contents. -/
structure WideDF where
  index : List Int
  segments : List String
  features : List String
  data : Int → String → String → Option ℚ

/-- Model of `TSDataset.to_dataset`: pivot the long table on
`index="timestamp"`, `columns="segment"` and sort the column labels
(`sort_index(axis=1, level=(0, 1))`); a missing `(timestamp, segment)`
combination pivots to NaN.  `pivot` raises on duplicate
`(timestamp, segment)` pairs; the model reads the first matching row (the
claims quantify over valid tables, where the pair is unique). -/
def toDataset (l : LongDF) : WideDF where
  index := sortDedup (l.rows.map (fun r => r.timestamp))
  segments := sortDedup (l.rows.map (fun r => r.segment))
  features := sortDedup l.features
  data := fun t s f =>
    match l.rows.find? (fun r => r.timestamp == t && r.segment == s) with
    | some r => lookupVal r.vals f
    | none => none

/-- Feature column order produced by `TSDataset.to_flatten`: when a `target`
column exists its key is inserted first (the source pre-seeds the dict with a
`target` placeholder to lock its position), the rest keep column order. -/
def flattenFeatures (features : List String) : List String :=
  if features.contains "target" then "target" :: features.erase "target" else features

/-- Model of `TSDataset.to_flatten` (with the default `features="all"`): the
timestamps are tiled per segment and the segments repeated per timestamp
(segment-major order), and each feature column is stacked segment by segment,
so the row for `(t, s)` carries every feature cell of that combination. -/
def toFlatten (w : WideDF) : LongDF where
  features := flattenFeatures w.features
  rows := w.segments.flatMap (fun s =>
    w.index.map (fun t =>
      { timestamp := t, segment := s
        vals := (flattenFeatures w.features).map (fun f => (f, w.data t s f)) }))

/-- Concrete one-row long table used as the C4 witness. -/
def sampleLongDF : LongDF :=
  { features := ["target"]
    rows := [{ timestamp := 0, segment := "s", vals := [("target", some 1)] }] }

/-- The visible working table of a dataset: timestamp index, column labels
`(segment, feature)`, and cell contents. -/
structure TSFrame where
  index : List Int
  cols : List (String × String)
  data : Int → String × String → Option ℚ

/-- Dataset state relevant to the target-component operations: the working
table plus the recorded component-name tuple. -/
structure DatasetState where
  frame : TSFrame
  targetComponentsNames : List String

/-- Order-preserving deduplication, the model of `pandas.Index.unique()`
(first occurrence kept). -/
def uniqueKeepFirst : List String → List String
  | [] => []
  | a :: rest => a :: (uniqueKeepFirst rest).filter (fun b => !(b == a))

/-- Model of `TSDataset.segments`:
`df.columns.get_level_values("segment").unique()`. -/
def segsOf (cols : List (String × String)) : List String :=
  uniqueKeepFirst (cols.map (fun c => c.1))

/-- Model of `df[segment].columns.get_level_values("feature")`: the feature
labels of one segment's columns, in column order. -/
def featuresOfSegment (cols : List (String × String)) (s : String) : List String :=
  (cols.filter (fun c => c.1 == s)).map (fun c => c.2)

/-- Model of `TSDataset.get_target_components()` /
`to_pandas(features=target_components_names)`: the sub-table of the component
columns (shares the cell contents of the working table). -/
def getTargetComponents (d : DatasetState) : TSFrame :=
  { index := d.frame.index
    cols := d.frame.cols.filter (fun c => d.targetComponentsNames.contains c.2)
    data := d.frame.data }

/-- Model of `TSDataset.drop_target_components()`: when components are
recorded, drop their columns (`df.drop(columns=..., level="feature")`) and
clear the recorded tuple; otherwise a no-op. -/
def dropTargetComponents (d : DatasetState) : DatasetState :=
  if d.targetComponentsNames.isEmpty then d
  else
    { frame :=
        { d.frame with
          cols := d.frame.cols.filter (fun c => !(d.targetComponentsNames.contains c.2)) }
      targetComponentsNames := [] }

/-- Leading-all-null-row trimming of `__getitem__` on a sub-table given by its
columns: `df.loc[df.first_valid_index():]` (whole table when nothing is
valid), used by `add_target_components` through `self[..., "target"]`. -/
def trimLeadingAllNull (index : List Int) (cols : List (String × String))
    (data : Int → String × String → Option ℚ) : List Int :=
  match index.find? (fun t => cols.any (fun c => (data t c).isSome)) with
  | none => index
  | some t0 => index.dropWhile (fun t => decide (t < t0))

/-- Absolute tolerance of `np.allclose` (1e-8). -/
def npAtol : ℚ := 1 / 100000000

/-- Relative tolerance of `np.allclose` (1e-5). -/
def npRtol : ℚ := 1 / 100000

/-- One cell of the `np.allclose` comparison: `|a - b| <= atol + rtol * |b|`,
and false against NaN (allclose does not treat NaN as equal). -/
def isCloseQ (x : ℚ) (y : Option ℚ) : Bool :=
  match y with
  | some v => decide (|x - v| ≤ npAtol + npRtol * |v|)
  | none => false

/-- Model of `target_components_df.sum(axis=1, level="segment")` at one cell:
sum of the segment's component columns, skipping NaN (pandas `sum` with
default `skipna=True`, `min_count=0`: an all-NaN group sums to 0). -/
def componentsSum (comp : TSFrame) (t : Int) (s : String) : ℚ :=
  ((comp.cols.filter (fun c => c.1 == s)).map (fun c => comp.data t c)).foldl
    (fun acc v => acc + v.getD 0) 0

/-- Errors raised by `TSDataset.add_target_components`. -/
inductive AddComponentsError
  | alreadyPresent   -- dataset already contains target components
  | indexError       -- `self.segments[0]` on a dataset with no segments
  | namesDiffer      -- component names differ between segments
  | broadcastError   -- np.allclose on arrays of incompatible shapes
  | sumMismatch      -- components do not sum up to target
deriving DecidableEq

/-- Model of the `np.allclose(components_sum.values, self[..., "target"].values)`
check inside `add_target_components`: the target sub-table is trimmed of its
leading all-null rows by `__getitem__`, then both arrays are compared
positionally (rows zipped with rows, segment columns zipped with segment
columns); numpy raises on incompatible shapes. -/
def allcloseCheck (d : DatasetState) (comp : TSFrame) : Except AddComponentsError Bool :=
  let targetCols := d.frame.cols.filter (fun c => c.2 == "target")
  let trimmed := trimLeadingAllNull d.frame.index targetCols d.frame.data
  let targetSegs := segsOf targetCols
  let compSegs := segsOf comp.cols
  if comp.index.length ≠ trimmed.length ∨ compSegs.length ≠ targetSegs.length then
    Except.error AddComponentsError.broadcastError
  else
    Except.ok ((comp.index.zip trimmed).all (fun tp =>
      (compSegs.zip targetSegs).all (fun sp =>
        isCloseQ (componentsSum comp tp.1 sp.1) (d.frame.data tp.2 (sp.2, "target")))))

/-- Model of `TSDataset.add_target_components`, following the source order:
fail when components are already present; read the component names from the
first segment (IndexError on an empty dataset) and sort them; fail when any
segment's sorted component names differ; run the sum-to-target tolerance
check; then record the sorted name tuple and produce the new working table
`pd.concat((self.df, target_components_df), axis=1).loc[self.df.index]
.sort_index(axis=1, level=("segment", "feature"))`. -/
def addTargetComponents (d : DatasetState) (comp : TSFrame) :
    Except AddComponentsError DatasetState :=
  if !d.targetComponentsNames.isEmpty then Except.error AddComponentsError.alreadyPresent
  else
    match segsOf d.frame.cols with
    | [] => Except.error AddComponentsError.indexError
    | s0 :: rest =>
      let componentsNames :=
        List.insertionSort (fun (a : String) b => a ≤ b) (featuresOfSegment comp.cols s0)
      if (s0 :: rest).all (fun s =>
          List.insertionSort (fun (a : String) b => a ≤ b) (featuresOfSegment comp.cols s)
            == componentsNames) then
        match allcloseCheck d comp with
        | Except.error e => Except.error e
        | Except.ok b =>
          if b then
            Except.ok
              { frame :=
                  { index := d.frame.index
                    cols := List.insertionSort pairLe (d.frame.cols ++ comp.cols)
                    data := fun t c =>
                      bif d.frame.cols.contains c then d.frame.data t c else comp.data t c }
                targetComponentsNames := componentsNames }
          else Except.error AddComponentsError.sumMismatch
      else Except.error AddComponentsError.namesDiffer

/-- Concrete dataset used as the C5 witness: one segment, one timestamp, one
component equal to the target. -/
def sampleComponentState : DatasetState :=
  { frame :=
      { index := [0]
        cols := [("s", "component_a"), ("s", "target")]
        data := fun _ c =>
          if c.2 == "component_a" then some 1
          else if c.2 == "target" then some 1
          else none }
    targetComponentsNames := ["component_a"] }

theorem length_rangeInt (a : Int) (n : Nat) : (rangeInt a n).length = n := by
  rw [rangeInt, List.length_map, List.length_range]

theorem mem_rangeInt {t a : Int} {n : Nat} :
    t ∈ rangeInt a n ↔ a ≤ t ∧ t < a + n := by
  simp only [rangeInt, List.mem_map, List.mem_range]
  constructor
  · rintro ⟨i, hi, rfl⟩
    omega
  · rintro ⟨h1, h2⟩
    refine ⟨(t - a).toNat, by omega, by omega⟩

theorem rangeInt_succ_right (a : Int) (n : Nat) :
    rangeInt a (n + 1) = rangeInt a n ++ [a + n] := by
  simp [rangeInt, List.range_succ]

theorem rangeInt_append (a : Int) (m n : Nat) :
    rangeInt a m ++ rangeInt (a + m) n = rangeInt a (m + n) := by
  induction n with
  | zero => simp [rangeInt]
  | succ n ih =>
    rw [rangeInt_succ_right, ← List.append_assoc, ih, ← Nat.add_assoc,
      rangeInt_succ_right]
    congr 2
    push_cast
    ring

theorem idxMax_rangeInt (a : Int) (n : Nat) :
    idxMax (rangeInt a (n + 1)) = some (a + n) := by
  induction n with
  | zero => simp [idxMax, rangeInt, List.range_succ]
  | succ n ih =>
    rw [rangeInt_succ_right, idxMax, List.foldl_append]
    rw [idxMax] at ih
    rw [ih]
    simp only [List.foldl_cons, List.foldl_nil]
    have : max (a + (n : Int)) (a + ((n : Nat) + 1 : Nat)) = a + ((n : Nat) + 1 : Nat) := by
      apply max_eq_right
      push_cast
      omega
    rw [this]

theorem idxMin_rangeInt (a : Int) (n : Nat) :
    idxMin (rangeInt a (n + 1)) = some a := by
  induction n with
  | zero => simp [idxMin, rangeInt, List.range_succ]
  | succ n ih =>
    rw [rangeInt_succ_right, idxMin, List.foldl_append]
    rw [idxMin] at ih
    rw [ih]
    simp only [List.foldl_cons, List.foldl_nil]
    have : min a (a + ((n : Nat) + 1 : Nat)) = a := by
      apply min_eq_left
      push_cast
      omega
    rw [this]

theorem asfreq_rangeInt (a : Int) (n : Nat) :
    asfreq (rangeInt a n) = rangeInt a n := by
  cases n with
  | zero => rfl
  | succ n =>
    simp only [asfreq, idxMin_rangeInt, idxMax_rangeInt]
    have harg : (a + (n : Int) - a + 1).toNat = n + 1 := by omega
    rw [harg]

theorem dateRangeRightClosed_eq (s : Int) (p : Nat) :
    dateRangeRightClosed s (p + 1) = rangeInt (s + 1) p := by
  rw [dateRangeRightClosed, rangeInt, List.range_succ_eq_map]
  simp only [List.map_cons, List.drop_succ_cons, List.drop_zero, List.map_map]
  rw [rangeInt]
  apply List.map_congr_left
  intro i _
  simp only [Function.comp_apply]
  push_cast
  ring

/-- C1: `make_future(k)` with an empty transform sequence and `tail_steps = 0`
returns a dataset whose timestamp index is exactly the `k` consecutive
frequency periods strictly after the original maximum timestamp: it has `k`
rows, is contiguous and frequency-spaced (it equals an arithmetic progression
with step one frequency unit), and every resulting timestamp lies strictly
after every original timestamp. -/
theorem make_future_index_spec (a : Int) (n k : Nat) (hn : 1 ≤ n) (hk : 1 ≤ k) :
    makeFutureIndex (rangeInt a n) k 0 = rangeInt (a + n) k ∧
    (makeFutureIndex (rangeInt a n) k 0).length = k ∧
    ∀ t ∈ makeFutureIndex (rangeInt a n) k 0, ∀ s ∈ rangeInt a n, s < t := by
  obtain ⟨n', rfl⟩ : ∃ n', n = n' + 1 := ⟨n - 1, by omega⟩
  have hmain : makeFutureIndex (rangeInt a (n' + 1)) k 0 = rangeInt (a + (n' + 1 : Nat)) k := by
    simp only [makeFutureIndex, idxMax_rangeInt, dateRangeRightClosed_eq]
    have harg : a + (n' : Int) + 1 = a + ((n' + 1 : Nat) : Int) := by push_cast; ring
    rw [harg, rangeInt_append, asfreq_rangeInt, length_rangeInt]
    have hdrop : n' + 1 + k - (k + 0) = n' + 1 := by omega
    rw [hdrop]
    have hdl := List.drop_left (rangeInt a (n' + 1)) (rangeInt (a + ((n' + 1 : Nat) : Int)) k)
    rw [length_rangeInt, rangeInt_append] at hdl
    exact hdl
  refine ⟨hmain, by rw [hmain, length_rangeInt], ?_⟩
  intro t ht s hs
  rw [hmain] at ht
  rw [mem_rangeInt] at ht hs
  push_cast at ht hs
  omega

/-- Witness for C1 at a concrete input: a three-row daily dataset extended by
two future steps. -/
theorem make_future_index_spec_witness :
    makeFutureIndex (rangeInt 0 3) 2 0 = rangeInt 3 2 ∧
    (makeFutureIndex (rangeInt 0 3) 2 0).length = 2 ∧
    ∀ t ∈ makeFutureIndex (rangeInt 0 3) 2 0, ∀ s ∈ rangeInt 0 3, s < t := by
  exact make_future_index_spec 0 3 2 (by decide) (by decide)

/-- C9: in the three-part indexing, when the selected sub-table holds no
non-null value at all the result is returned whole (no rows trimmed), so the
leading-all-null-row trimming only applies when the selection holds at least
one non-null value. -/
theorem getitem_trim_spec (rows : List SelectedRow) :
    ((∀ r ∈ rows, ∀ v ∈ r.2, v = none) → getitemTrim rows = rows) ∧
    (getitemTrim rows ≠ rows → ∃ r ∈ rows, ∃ v ∈ r.2, v.isSome = true) := by
  constructor
  · intro h
    have hfv : firstValidIndex rows = none := by
      rw [firstValidIndex, Option.map_eq_none']
      rw [List.find?_eq_none]
      intro r hr
      simp only [List.any_eq_true, Bool.not_eq_true]
      rintro ⟨v, hv, hsome⟩
      rw [h r hr v hv] at hsome
      simp at hsome
    rw [getitemTrim, hfv]
  · intro hne
    by_contra hnone
    push_neg at hnone
    have hall : ∀ r ∈ rows, ∀ v ∈ r.2, v = none := by
      intro r hr v hv
      have := hnone r hr v hv
      cases v with
      | none => rfl
      | some x => simp at this
    exact hne (by
      have hfv : firstValidIndex rows = none := by
        rw [firstValidIndex, Option.map_eq_none']
        rw [List.find?_eq_none]
        intro r hr
        simp only [List.any_eq_true, Bool.not_eq_true]
        rintro ⟨v, hv, hsome⟩
        rw [hall r hr v hv] at hsome
        simp at hsome
      rw [getitemTrim, hfv])

/-- Witness for C9 at a concrete input: a two-row, one-column selection that
is entirely null comes back unchanged. -/
theorem getitem_trim_spec_witness :
    getitemTrim [((0 : Int), [(none : Option ℚ)]), ((1 : Int), [none])] =
      [((0 : Int), [(none : Option ℚ)]), ((1 : Int), [none])] :=
  (getitem_trim_spec _).1 (by decide)

/-- C2 counterexample: a segment whose regressors start exactly with and end
exactly with the target satisfies the claimed bounds (regressor first valid
timestamp no later than the target's, regressor last valid timestamp no
earlier than the target's), yet `_check_regressors` raises the
ends-too-early error for that segment, because the source requires
`target_max < exog_series_max` strictly. -/
theorem check_regressors_claim_counterexample :
    firstValid tightSegment.exog = some 0 ∧ firstValid tightSegment.target = some 0 ∧
    lastValid tightSegment.exog = some 1 ∧ lastValid tightSegment.target = some 1 ∧
    checkRegressors true [tightSegment] =
      Except.error (RegressorError.endsTooEarly "segment_a") :=
  ⟨rfl, rfl, rfl, rfl, rfl⟩

/-- C2 amended: with regressor columns present, the check passes exactly when,
for every segment, the target does not start strictly before the regressors
(under NaT semantics) and the target does not end at-or-after the regressors'
last valid timestamp — i.e. regressors must start no later and extend
strictly later than the target; when it fails, the error names an offending
segment and the violated bound.  With no regressor columns it passes
immediately. -/
theorem checkRegressorsSegment_ok_iff (sd : SegmentSeries) :
    checkRegressorsSegment sd = Except.ok () ↔
      natLtOpt (firstValid sd.target) (firstValid sd.exog) = false ∧
      natGeOpt (lastValid sd.target) (lastValid sd.exog) = false := by
  rw [checkRegressorsSegment]
  rcases hlt : natLtOpt (firstValid sd.target) (firstValid sd.exog) with _ | _ <;>
    rcases hge : natGeOpt (lastValid sd.target) (lastValid sd.exog) with _ | _ <;>
      simp

theorem checkRegressorsSegment_error_cases (sd : SegmentSeries) (e : RegressorError) :
    checkRegressorsSegment sd = Except.error e →
      (e = RegressorError.startsTooLate sd.name ∧
        natLtOpt (firstValid sd.target) (firstValid sd.exog) = true) ∨
      (e = RegressorError.endsTooEarly sd.name ∧
        natGeOpt (lastValid sd.target) (lastValid sd.exog) = true) := by
  rw [checkRegressorsSegment]
  rcases hlt : natLtOpt (firstValid sd.target) (firstValid sd.exog) with _ | _ <;>
    rcases hge : natGeOpt (lastValid sd.target) (lastValid sd.exog) with _ | _ <;>
      simp <;> intro h <;> simp [h]

/-- C2 amended: with regressor columns present, the check passes exactly when,
for every segment, the target does not start strictly before the regressors
(under NaT semantics) and the target does not end at-or-after the regressors'
last valid timestamp — i.e. regressors must start no later and extend
strictly later than the target; when it fails, the error names an offending
segment and the violated bound.  With no regressor columns it passes
immediately. -/
theorem check_regressors_spec (segments : List SegmentSeries) :
    (checkRegressors true segments = Except.ok () ↔
      ∀ sd ∈ segments,
        natLtOpt (firstValid sd.target) (firstValid sd.exog) = false ∧
        natGeOpt (lastValid sd.target) (lastValid sd.exog) = false) ∧
    (∀ e, checkRegressors true segments = Except.error e →
      ∃ sd ∈ segments,
        (e = RegressorError.startsTooLate sd.name ∧
          natLtOpt (firstValid sd.target) (firstValid sd.exog) = true) ∨
        (e = RegressorError.endsTooEarly sd.name ∧
          natGeOpt (lastValid sd.target) (lastValid sd.exog) = true)) ∧
    checkRegressors false segments = Except.ok () := by
  refine ⟨?_, ?_, rfl⟩
  · simp only [checkRegressors, if_true]
    induction segments with
    | nil => simp [checkRegressorsList]
    | cons sd rest ih =>
      rw [checkRegressorsList]
      rcases hseg : checkRegressorsSegment sd with e | u
      · constructor
        · intro habs
          cases habs
        · intro h
          obtain ⟨h1, h2⟩ := h sd (List.mem_cons_self sd rest)
          have : checkRegressorsSegment sd = Except.ok () :=
            (checkRegressorsSegment_ok_iff sd).mpr ⟨h1, h2⟩
          rw [this] at hseg
          cases hseg
      · rw [ih]
        constructor
        · intro h sd2 hmem
          rcases List.mem_cons.mp hmem with rfl | hmem2
          · cases u
            exact (checkRegressorsSegment_ok_iff sd2).mp hseg
          · exact h sd2 hmem2
        · intro h sd2 hmem
          exact h sd2 (List.mem_cons_of_mem sd hmem)
  · simp only [checkRegressors, if_true]
    induction segments with
    | nil => intro e h; cases h
    | cons sd rest ih =>
      intro e h
      rw [checkRegressorsList] at h
      rcases hseg : checkRegressorsSegment sd with e2 | u
      · rw [hseg] at h
        injection h with he
        subst he
        exact ⟨sd, List.mem_cons_self sd rest, checkRegressorsSegment_error_cases sd _ hseg⟩
      · rw [hseg] at h
        obtain ⟨sd2, hmem, hcase⟩ := ih e h
        exact ⟨sd2, List.mem_cons_of_mem sd hmem, hcase⟩

/-- Witness for C2's amended statement: a segment whose regressors start with
the target and end strictly after it passes the check. -/
theorem check_regressors_spec_witness :
    checkRegressors true [⟨"s", [(0, true), (1, true)], [(0, true), (1, true), (2, true)]⟩] =
      Except.ok () :=
  (check_regressors_spec _).1.mpr (by decide)

theorem mem_colSort {c : String × String} {l : List (String × String)} :
    c ∈ colSort l ↔ c ∈ l :=
  (List.perm_insertionSort pairLe l).mem_iff

/-- C10: after construction, after an exogenous merge, after `make_future`,
after `add_columns_from_pandas` and after `add_target_components`, the working
table's columns are sorted lexicographically by the `(segment, feature)`
pair. -/
theorem columns_sorted_invariant :
    (∀ rawCols exogCols, List.Sorted pairLe (constructorCols rawCols exogCols)) ∧
    (∀ dfCols exogCols, List.Sorted pairLe (mergeExogCols dfCols exogCols)) ∧
    (∀ rawCols exogCols componentNames quantileNames,
      List.Sorted pairLe (makeFutureCols rawCols exogCols componentNames quantileNames)) ∧
    (∀ dfCols updateCols, List.Sorted pairLe (addColumnsFromPandasCols dfCols updateCols)) ∧
    (∀ dfCols componentCols, List.Sorted pairLe (addTargetComponentsCols dfCols componentCols)) := by
  refine ⟨?_, ?_, ?_, ?_, ?_⟩
  · intro rawCols exogCols
    cases exogCols with
    | none => exact List.sorted_insertionSort pairLe _
    | some e => exact List.sorted_insertionSort pairLe _
  · intro dfCols exogCols
    exact List.sorted_insertionSort pairLe _
  · intro rawCols exogCols componentNames quantileNames
    exact List.sorted_insertionSort pairLe _
  · intro dfCols updateCols
    exact List.sorted_insertionSort pairLe _
  · intro dfCols componentCols
    exact List.sorted_insertionSort pairLe _

/-- C8 counterexample: `make_future` keeps the plain `target` column (the
source only drops target-component and target-quantile columns; its own
docstring example shows the `target` column, NaN-valued, in the result).  A
one-segment dataset with only a `target` column yields a future dataset that
still contains the `target` column, refuting the claim that no target column
remains. -/
theorem make_future_target_column_remains :
    ("segment_0", "target") ∈ makeFutureCols [("segment_0", "target")] none [] [] := by
  decide

/-- C8 amended: the dataset returned by `make_future` with an empty transform
sequence contains no target-component column and no target-quantile column;
the plain `target` column is not dropped (it remains, null over the future
horizon). -/
theorem make_future_no_component_or_quantile_columns
    (rawCols : List (String × String)) (exogCols : Option (List (String × String)))
    (componentNames quantileNames : List String) :
    ∀ c ∈ makeFutureCols rawCols exogCols componentNames quantileNames,
      componentNames.contains c.2 = false ∧ quantileNames.contains c.2 = false := by
  intro c hc
  simp only [makeFutureCols] at hc
  rw [mem_colSort, List.mem_filter] at hc
  obtain ⟨hc1, hq⟩ := hc
  rw [List.mem_filter] at hc1
  obtain ⟨_, hcp⟩ := hc1
  constructor
  · simpa using hcp
  · simpa using hq

/-- Witness for C8's amended statement at a concrete input: a dataset with a
component and a quantile column, both dropped by `make_future`. -/
theorem make_future_no_component_or_quantile_columns_witness :
    List.contains ["component_1"] "target" = false ∧
    List.contains ["target_0.025"] "target" = false :=
  make_future_no_component_or_quantile_columns
    [("s", "target"), ("s", "component_1"), ("s", "target_0.025")] none
    ["component_1"] ["target_0.025"] ("s", "target") (by decide)

/-- C3 counterexample: with `test_start` given and a `test_size` that extends
beyond the last timestamp (`test_start_idx + test_size > len(index)`), border
resolution raises the test-size ValueError instead of warning: on the
three-point index with `test_start` at position 2 and `test_size = 2`, the
source raises. -/
theorem test_size_overflow_raises :
    findAllBorders [0, 1, 2] none none (some 2) none (some 2) =
      Except.error BorderError.testSizeTooBig := rfl

/-- C3 amended: border resolution from four explicit timestamps never consults
the index extent and succeeds (without failure) whenever the borders are
ordered, even when they lie entirely outside the known index, and
`train_test_split` then only warns about the out-of-range boundary; but when
`test_end` is omitted and `test_start` and `test_size` are given with
`test_start_idx + test_size > len(index)`, resolution fails with the
test-size ValueError. -/
theorem border_resolution_range_spec :
    (∀ (index : List Int) (a b c d : Int), b ≤ c →
      findAllBorders index (some a) (some b) (some c) (some d) none =
        Except.ok ((a, b, c, d), [])) ∧
    (∀ (index : List Int) (ts : Int) (sz i : Nat),
      index.findIdx? (fun x => x == ts) = some i →
      index.length < i + sz →
      findAllBorders index none none (some ts) none (some sz) =
        Except.error BorderError.testSizeTooBig) ∧
    (∀ (index : List Int) (a b c d m : Int), b ≤ c → idxMax index = some m → m < d →
      ∃ tr te ws,
        trainTestSplitIndex index (some a) (some b) (some c) (some d) none =
          Except.ok ((tr, te), ws) ∧ BorderWarning.beyondMax ∈ ws) := by
  have hpart1 : ∀ (index : List Int) (a b c d : Int), b ≤ c →
      findAllBorders index (some a) (some b) (some c) (some d) none =
        Except.ok ((a, b, c, d), []) := by
    intro index a b c d h
    have hred : findAllBorders index (some a) (some b) (some c) (some d) none =
        if c < b then Except.error BorderError.testBeforeTrain
        else Except.ok ((a, b, c, d), []) := rfl
    rw [hred, if_neg (not_lt.mpr h)]
  refine ⟨hpart1, ?_, ?_⟩
  · intro index ts sz i hidx hlen
    have hloc : getLoc index ts = Except.ok i := by rw [getLoc, hidx]
    have h1 : resolveTestEnd index none (some ts) none (some sz) =
        Except.error BorderError.testSizeTooBig := by
      rw [resolveTestEnd]
      rw [hloc]
      dsimp only
      rw [if_pos hlen]
    rw [findAllBorders]
    rw [h1]
  · intro index a b c d m h hmax hd
    rw [trainTestSplitIndex, hpart1 index a b c d h]
    dsimp only
    rw [hmax]
    dsimp only
    rw [if_pos hd]
    refine ⟨_, _, _, rfl, ?_⟩
    simp

/-- Witness for C3's amended statement: explicit borders lying entirely
outside a one-point index still resolve successfully. -/
theorem border_resolution_range_spec_witness :
    findAllBorders [0] (some (-5)) (some 10) (some 11) (some 99) none =
      Except.ok ((-5, 10, 11, 99), []) :=
  border_resolution_range_spec.1 [0] (-5) 10 11 99 (by decide)

theorem sliceLoc_all {index : List Int} {lo hi : Int}
    (h : ∀ x ∈ index, lo ≤ x ∧ x ≤ hi) : sliceLoc index lo hi = index := by
  rw [sliceLoc, List.filter_eq_self]
  intro x hx
  obtain ⟨h1, h2⟩ := h x hx
  simp [h1, h2]

theorem sliceLoc_nil {index : List Int} {lo hi : Int}
    (h : ∀ x ∈ index, x < lo ∨ hi < x) : sliceLoc index lo hi = [] := by
  rw [sliceLoc, List.filter_eq_nil_iff]
  intro x hx
  rcases h x hx with h1 | h1 <;> simp [not_le.mpr h1]

theorem sliceLoc_append (l1 l2 : List Int) (lo hi : Int) :
    sliceLoc (l1 ++ l2) lo hi = sliceLoc l1 lo hi ++ sliceLoc l2 lo hi := by
  simp only [sliceLoc, List.filter_append]

/-- C6: on a dataset with a regular timestamp index, `train_test_split` with
`train_end = T` and `test_start` one period after `T` returns a train index
covering `[train_start, T]` and a test index covering `[T + 1, test_end]`:
both are contiguous arithmetic progressions with the dataset frequency, they
are disjoint, and their concatenation is exactly the original index (which
spans `[train_start, test_end]`). -/
theorem train_test_split_partition (a : Int) (n : Nat) (T : Int)
    (hT : T ∈ rangeInt a n) (hT1 : T + 1 ∈ rangeInt a n) :
    ∃ train test ws,
      trainTestSplitIndex (rangeInt a n) none (some T) (some (T + 1)) none none =
        Except.ok ((train, test), ws) ∧
      train = rangeInt a (T - a + 1).toNat ∧
      test = rangeInt (T + 1) (a + n - 1 - T).toNat ∧
      (∀ x ∈ train, x ∉ test) ∧
      train ++ test = rangeInt a n := by
  rw [mem_rangeInt] at hT hT1
  obtain ⟨n', rfl⟩ : ∃ n', n = n' + 1 := ⟨n - 1, by omega⟩
  have hta : a ≤ T := hT.1
  have htn : T < a + n' := by
    have := hT1.2
    push_cast at this
    omega
  have h1 : resolveTestEnd (rangeInt a (n' + 1)) (some T) (some (T + 1)) none none =
      Except.ok (some (T + 1), a + n') := by
    simp only [resolveTestEnd, idxMax_rangeInt]
  have h2 : resolveTrainStart (rangeInt a (n' + 1)) none = Except.ok a := by
    simp only [resolveTrainStart, idxMin_rangeInt]
  have hb : findAllBorders (rangeInt a (n' + 1)) none (some T) (some (T + 1)) none none =
      Except.ok ((a, T, T + 1, a + n'), []) := by
    simp only [findAllBorders, h1, h2, resolveNoSize, Option.isNone_some,
      Option.isNone_none, Option.isSome_none, Option.isSome_some, Bool.false_and,
      Bool.and_false, Bool.true_and, Bool.and_true, Bool.false_eq_true, if_false]
    rw [if_neg (by omega : ¬(T + 1 < T))]
  set t := (T - a).toNat with ht
  have hTt : T = a + (t : Int) := by omega
  have htlt : t < n' := by omega
  have hsplit : rangeInt a (n' + 1) = rangeInt a (t + 1) ++ rangeInt (a + ((t + 1 : Nat) : Int)) (n' - t) := by
    rw [rangeInt_append]
    congr 1
    omega
  have hslice1 : sliceLoc (rangeInt a (n' + 1)) a T = rangeInt a (t + 1) := by
    rw [hsplit, sliceLoc_append]
    rw [sliceLoc_all (fun x hx => by
      rw [mem_rangeInt] at hx
      push_cast at hx
      constructor <;> omega)]
    rw [sliceLoc_nil (fun x hx => by
      rw [mem_rangeInt] at hx
      push_cast at hx
      right
      omega)]
    rw [List.append_nil]
  have hslice2 : sliceLoc (rangeInt a (n' + 1)) (T + 1) (a + n') =
      rangeInt (a + ((t + 1 : Nat) : Int)) (n' - t) := by
    rw [hsplit, sliceLoc_append]
    rw [sliceLoc_nil (fun x hx => by
      rw [mem_rangeInt] at hx
      push_cast at hx
      left
      omega)]
    rw [sliceLoc_all (fun x hx => by
      rw [mem_rangeInt] at hx
      push_cast at hx
      constructor <;> omega)]
    rw [List.nil_append]
  refine ⟨rangeInt a (t + 1), rangeInt (a + ((t + 1 : Nat) : Int)) (n' - t), [], ?_, ?_, ?_, ?_, ?_⟩
  · simp only [trainTestSplitIndex, hb, idxMax_rangeInt, idxMin_rangeInt]
    rw [if_neg (lt_irrefl (a + (n' : Int))), if_neg (lt_irrefl a)]
    rw [hslice1, hslice2]
    simp
  · congr 1
    omega
  · have : (t + 1 : Nat) = ((T + 1 - a).toNat : Nat) := by omega
    congr 1
    · omega
    · push_cast
      omega
  · intro x hx hx2
    rw [mem_rangeInt] at hx hx2
    push_cast at hx hx2
    omega
  · rw [rangeInt_append]
    congr 1
    omega

/-- Witness for C6 at a concrete input: a four-point daily index split at
`T = 1`. -/
theorem train_test_split_partition_witness :
    ∃ train test ws,
      trainTestSplitIndex (rangeInt 0 4) none (some 1) (some 2) none none =
        Except.ok ((train, test), ws) ∧
      train = rangeInt 0 ((1 : Int) - 0 + 1).toNat ∧
      test = rangeInt 2 ((0 : Int) + 4 - 1 - 1).toNat ∧
      (∀ x ∈ train, x ∉ test) ∧
      train ++ test = rangeInt 0 4 :=
  train_test_split_partition 0 4 1 (by decide) (by decide)

theorem runInverseChain_events (steps : List (InvState → Except String InvState))
    (s : InvState) (pos : Nat) :
    ∀ e ∈ (runInverseChain steps s pos).2.2, ∃ i, e = InvEvent.inverseApplied i := by
  induction steps generalizing s pos with
  | nil =>
    intro e he
    simp [runInverseChain] at he
  | cons f rest ih =>
    intro e he
    rw [runInverseChain] at he
    rcases hf : f s with err | s1
    · rw [hf] at he
      simp only [List.mem_singleton] at he
      exact ⟨pos, he⟩
    · rw [hf] at he
      dsimp only at he
      rcases List.mem_cons.mp he with rfl | h2
      · exact ⟨pos, rfl⟩
      · exact ih s1 (pos + 1) e h2

/-- C7: on a dataset with target components, `inverse_transform` drops the
components before any inverse transform runs (the drop is the first event),
re-derives and re-attaches them exactly once afterwards (exactly one
restoration event, and it is the last), and this restoration happens for
every chain — including chains whose inverse raises mid-way, thanks to the
`try`/`finally` structure; the final state carries the original component
names again. -/
theorem inverse_transform_component_restoration
    (transforms : List (InvState → Except String InvState)) (s : InvState)
    (h : s.componentNames ≠ []) :
    (inverseTransform transforms s).1.componentNames = s.componentNames ∧
    (inverseTransform transforms s).2.2.count InvEvent.restoreComponents = 1 ∧
    (inverseTransform transforms s).2.2.count InvEvent.dropComponents = 1 ∧
    (inverseTransform transforms s).2.2.head? = some InvEvent.dropComponents ∧
    (inverseTransform transforms s).2.2.getLast? = some InvEvent.restoreComponents ∧
    ∀ e ∈ (inverseTransform transforms s).2.2,
      e = InvEvent.dropComponents ∨ e = InvEvent.restoreComponents ∨
        ∃ i, e = InvEvent.inverseApplied i := by
  have hne : s.componentNames.isEmpty = false := by
    cases hc : s.componentNames with
    | nil => exact absurd hc h
    | cons a l => rfl
  have hred : inverseTransform transforms s =
      (restoreComponents s.componentNames
        (runInverseChain transforms.reverse { s with componentNames := [] } 0).1,
       (runInverseChain transforms.reverse { s with componentNames := [] } 0).2.1,
       InvEvent.dropComponents ::
         (runInverseChain transforms.reverse { s with componentNames := [] } 0).2.2 ++
           [InvEvent.restoreComponents]) := by
    rw [inverseTransform, hne]
    simp only [Bool.false_eq_true, if_false]
  have hevs := runInverseChain_events transforms.reverse { s with componentNames := [] } 0
  have hnotin1 : InvEvent.restoreComponents ∉
      (runInverseChain transforms.reverse { s with componentNames := [] } 0).2.2 := by
    intro hmem
    obtain ⟨i, hi⟩ := hevs _ hmem
    cases hi
  have hnotin2 : InvEvent.dropComponents ∉
      (runInverseChain transforms.reverse { s with componentNames := [] } 0).2.2 := by
    intro hmem
    obtain ⟨i, hi⟩ := hevs _ hmem
    cases hi
  refine ⟨?_, ?_, ?_, ?_, ?_, ?_⟩
  · rw [hred]
    rfl
  · rw [hred]
    simp [List.count_cons, List.count_append, List.count_eq_zero.mpr hnotin1]
  · rw [hred]
    simp [List.count_cons, List.count_append, List.count_eq_zero.mpr hnotin2]
  · rw [hred]
    rfl
  · rw [hred]
    show ((InvEvent.dropComponents ::
      (runInverseChain transforms.reverse { s with componentNames := [] } 0).2.2) ++
        [InvEvent.restoreComponents]).getLast? = some InvEvent.restoreComponents
    rw [List.getLast?_concat]
  · rw [hred]
    intro e he
    rcases List.mem_append.mp he with h2 | h3
    · rcases List.mem_cons.mp h2 with rfl | h4
      · exact Or.inl rfl
      · exact Or.inr (Or.inr (hevs e h4))
    · rw [List.mem_singleton] at h3
      exact Or.inr (Or.inl h3)

/-- Witness for C7 at a concrete input: a one-component dataset and a chain
whose only inverse transform raises — the restoration still happens exactly
once and last. -/
theorem inverse_transform_component_restoration_witness :
    (inverseTransform invFailingChain invInitialState).1.componentNames =
      invInitialState.componentNames ∧
    (inverseTransform invFailingChain invInitialState).2.2.count
      InvEvent.restoreComponents = 1 ∧
    (inverseTransform invFailingChain invInitialState).2.2.count
      InvEvent.dropComponents = 1 ∧
    (inverseTransform invFailingChain invInitialState).2.2.head? =
      some InvEvent.dropComponents ∧
    (inverseTransform invFailingChain invInitialState).2.2.getLast? =
      some InvEvent.restoreComponents ∧
    ∀ e ∈ (inverseTransform invFailingChain invInitialState).2.2,
      e = InvEvent.dropComponents ∨ e = InvEvent.restoreComponents ∨
        ∃ i, e = InvEvent.inverseApplied i :=
  inverse_transform_component_restoration invFailingChain invInitialState (by decide)

theorem sorted_sortDedup {α : Type} [LinearOrder α] [DecidableEq α] (l : List α) :
    List.Sorted (fun a b => a ≤ b) (sortDedup l) :=
  List.Pairwise.sublist (List.dedup_sublist _) (List.sorted_insertionSort _ l)

theorem nodup_sortDedup {α : Type} [LinearOrder α] [DecidableEq α] (l : List α) :
    (sortDedup l).Nodup :=
  List.nodup_dedup _

theorem mem_sortDedup {α : Type} [LinearOrder α] [DecidableEq α] {a : α} {l : List α} :
    a ∈ sortDedup l ↔ a ∈ l := by
  rw [sortDedup, List.mem_dedup]
  exact (List.perm_insertionSort _ l).mem_iff

theorem sortDedup_eq_canonical {α : Type} [LinearOrder α] [DecidableEq α]
    {l m : List α} (hs : List.Sorted (fun a b => a ≤ b) m) (hn : m.Nodup)
    (hmem : ∀ a, a ∈ l ↔ a ∈ m) : sortDedup l = m := by
  refine List.eq_of_perm_of_sorted ?_ (sorted_sortDedup l) hs
  exact (List.perm_ext_iff_of_nodup (nodup_sortDedup l) hn).mpr
    (fun a => (mem_sortDedup).trans (hmem a))

theorem mem_flattenFeatures {f : String} {fs : List String} :
    f ∈ flattenFeatures fs ↔ f ∈ fs := by
  rw [flattenFeatures]
  by_cases h : fs.contains "target"
  · rw [if_pos h]
    have htar : "target" ∈ fs := by simpa using h
    constructor
    · intro hmem
      rcases List.mem_cons.mp hmem with rfl | h2
      · exact htar
      · exact List.mem_of_mem_erase h2
    · intro hmem
      by_cases hft : f = "target"
      · subst hft
        exact List.mem_cons_self _ _
      · exact List.mem_cons_of_mem _ ((List.mem_erase_of_ne hft).mpr hmem)
  · rw [if_neg h]

theorem lookupVal_map (g : String → Option ℚ) (fs : List String) (f : String)
    (hf : f ∈ fs) :
    lookupVal (fs.map (fun x => (x, g x))) f = g f := by
  induction fs with
  | nil => cases hf
  | cons x rest ih =>
    by_cases hx : x = f
    · subst hx
      rw [List.map_cons, lookupVal, List.find?_cons_of_pos _ (by simp)]
    · rw [List.map_cons, lookupVal, List.find?_cons_of_neg _ (by simp [hx])]
      have hf2 : f ∈ rest := by
        rcases List.mem_cons.mp hf with rfl | h2
        · exact absurd rfl hx
        · exact h2
      exact ih hf2

theorem toFlatten_row_spec (w : WideDF) (r : LongRow) (hr : r ∈ (toFlatten w).rows) :
    r.segment ∈ w.segments ∧ r.timestamp ∈ w.index ∧
    r.vals = (flattenFeatures w.features).map (fun f => (f, w.data r.timestamp r.segment f)) := by
  simp only [toFlatten, List.mem_flatMap, List.mem_map] at hr
  obtain ⟨s, hs, t, ht, rfl⟩ := hr
  exact ⟨hs, ht, rfl⟩

theorem toFlatten_mem_row (w : WideDF) {t : Int} {s : String}
    (ht : t ∈ w.index) (hs : s ∈ w.segments) :
    ({ timestamp := t, segment := s
       vals := (flattenFeatures w.features).map (fun f => (f, w.data t s f)) } : LongRow) ∈
      (toFlatten w).rows := by
  simp only [toFlatten, List.mem_flatMap, List.mem_map]
  exact ⟨s, hs, t, ht, rfl⟩

theorem toFlatten_data (w : WideDF) {t : Int} {s : String} {f : String}
    (ht : t ∈ w.index) (hs : s ∈ w.segments) (hf : f ∈ w.features) :
    (toDataset (toFlatten w)).data t s f = w.data t s f := by
  simp only [toDataset]
  rcases hfind : (toFlatten w).rows.find? (fun r => r.timestamp == t && r.segment == s)
      with _ | r
  · exfalso
    have hnone := List.find?_eq_none.mp hfind _ (toFlatten_mem_row w ht hs)
    simp at hnone
  · have hp := List.find?_some hfind
    have hmem := List.mem_of_find?_eq_some hfind
    obtain ⟨hseg, htime, hvals⟩ := toFlatten_row_spec w r hmem
    simp only [Bool.and_eq_true, beq_iff_eq] at hp
    obtain ⟨hpt, hps⟩ := hp
    rw [hfind]
    dsimp only
    rw [hvals, hpt, hps]
    exact lookupVal_map (w.data t s) _ f (mem_flattenFeatures.mpr hf)

/-- C4: for every long-form table, `to_dataset ∘ to_flatten ∘ to_dataset`
agrees with a single `to_dataset`: same timestamp index, same segments, same
features, and the same cell value at every
`(timestamp, segment, feature)` entry. -/
theorem to_dataset_roundtrip (l : LongDF) :
    (toDataset (toFlatten (toDataset l))).index = (toDataset l).index ∧
    (toDataset (toFlatten (toDataset l))).segments = (toDataset l).segments ∧
    (toDataset (toFlatten (toDataset l))).features = (toDataset l).features ∧
    ∀ t ∈ (toDataset l).index, ∀ s ∈ (toDataset l).segments,
      ∀ f ∈ (toDataset l).features,
        (toDataset (toFlatten (toDataset l))).data t s f = (toDataset l).data t s f := by
  refine ⟨?_, ?_, ?_, ?_⟩
  · show sortDedup ((toFlatten (toDataset l)).rows.map (fun r => r.timestamp)) =
      (toDataset l).index
    apply sortDedup_eq_canonical (sorted_sortDedup _) (nodup_sortDedup _)
    intro x
    constructor
    · intro hx
      obtain ⟨r, hr, rfl⟩ := List.mem_map.mp hx
      exact (toFlatten_row_spec (toDataset l) r hr).2.1
    · intro hx
      obtain ⟨y, hy⟩ := List.mem_map.mp (mem_sortDedup.mp hx)
      obtain ⟨r0, hr0, hr0e⟩ := List.mem_map.mp (mem_sortDedup.mp hx)
      have hrow0 : r0 ∈ l.rows := hr0
      have hs0 : r0.segment ∈ (toDataset l).segments := by
        show r0.segment ∈ sortDedup (l.rows.map (fun r => r.segment))
        exact mem_sortDedup.mpr (List.mem_map.mpr ⟨r0, hrow0, rfl⟩)
      refine List.mem_map.mpr ⟨_, toFlatten_mem_row (toDataset l) hx hs0, rfl⟩
  · show sortDedup ((toFlatten (toDataset l)).rows.map (fun r => r.segment)) =
      (toDataset l).segments
    apply sortDedup_eq_canonical (sorted_sortDedup _) (nodup_sortDedup _)
    intro x
    constructor
    · intro hx
      obtain ⟨r, hr, rfl⟩ := List.mem_map.mp hx
      exact (toFlatten_row_spec (toDataset l) r hr).1
    · intro hx
      obtain ⟨r0, hr0, hr0e⟩ := List.mem_map.mp (mem_sortDedup.mp hx)
      have ht0 : r0.timestamp ∈ (toDataset l).index := by
        show r0.timestamp ∈ sortDedup (l.rows.map (fun r => r.timestamp))
        exact mem_sortDedup.mpr (List.mem_map.mpr ⟨r0, hr0, rfl⟩)
      refine List.mem_map.mpr ⟨_, toFlatten_mem_row (toDataset l) ht0 hx, rfl⟩
  · show sortDedup (toFlatten (toDataset l)).features = (toDataset l).features
    apply sortDedup_eq_canonical (sorted_sortDedup _) (nodup_sortDedup _)
    intro x
    show x ∈ flattenFeatures (toDataset l).features ↔ x ∈ (toDataset l).features
    exact mem_flattenFeatures
  · intro t ht s hs f hf
    exact toFlatten_data (toDataset l) ht hs hf

/-- Witness for C4 at a concrete input: a one-row long table whose pivoted
value survives the round trip. -/
theorem to_dataset_roundtrip_witness :
    (toDataset (toFlatten (toDataset sampleLongDF))).data 0 "s" "target" =
      (toDataset sampleLongDF).data 0 "s" "target" :=
  (to_dataset_roundtrip sampleLongDF).2.2.2 0 (by decide) "s" (by decide) "target" (by decide)

theorem dropTargetComponents_eq (d : DatasetState) (h : d.targetComponentsNames ≠ []) :
    dropTargetComponents d =
      { frame :=
          { index := d.frame.index
            cols := d.frame.cols.filter (fun c => !(d.targetComponentsNames.contains c.2))
            data := d.frame.data }
        targetComponentsNames := [] } := by
  have hemp : d.targetComponentsNames.isEmpty = false := by
    cases hc : d.targetComponentsNames with
    | nil => exact absurd hc h
    | cons a l => rfl
  rw [dropTargetComponents, hemp]
  simp only [Bool.false_eq_true, if_false]

theorem addTargetComponents_eq (dd : DatasetState) (comp : TSFrame)
    (hd : dd.targetComponentsNames = [])
    (s0 : String) (rest : List String) (hsegs : segsOf dd.frame.cols = s0 :: rest)
    (names : List String)
    (hnames : ∀ s ∈ s0 :: rest,
      List.insertionSort (fun (a : String) b => a ≤ b) (featuresOfSegment comp.cols s) = names)
    (hclose : allcloseCheck dd comp = Except.ok true) :
    addTargetComponents dd comp = Except.ok
      { frame :=
          { index := dd.frame.index
            cols := List.insertionSort pairLe (dd.frame.cols ++ comp.cols)
            data := fun t c =>
              bif dd.frame.cols.contains c then dd.frame.data t c else comp.data t c }
        targetComponentsNames := names } := by
  have hnames0 : List.insertionSort (fun (a : String) b => a ≤ b)
      (featuresOfSegment comp.cols s0) = names :=
    hnames s0 (List.mem_cons_self _ _)
  have hall : ((s0 :: rest).all (fun s =>
      List.insertionSort (fun (a : String) b => a ≤ b) (featuresOfSegment comp.cols s)
        == List.insertionSort (fun (a : String) b => a ≤ b) (featuresOfSegment comp.cols s0)))
      = true := by
    rw [List.all_eq_true]
    intro s hsmem
    rw [hnames s hsmem, hnames0]
    exact beq_self_eq_true _
  rw [addTargetComponents, hd]
  simp only [List.isEmpty_nil, Bool.not_true, Bool.false_eq_true, if_false]
  rw [hsegs]
  simp only [hall, if_true, hclose]
  rw [hnames0]

/-- C5: on a dataset whose recorded components pass the sum-to-target
tolerance check, `drop_target_components` followed by `add_target_components`
with the same component data (`get_target_components()`) succeeds and leaves
the visible working table unchanged — same index, same column labels, same
cell contents — and restores the same recorded component-name tuple.  The
hypotheses are the invariants the dataset satisfies after components were
added: the recorded names are non-empty, the columns are sorted, every
segment carries exactly the recorded component features (sorted), dropping
the component columns leaves the segment list unchanged (every segment keeps
its `target` column), and the tolerance check of `add_target_components`
passes on the dropped table against the same component data. -/
theorem drop_add_target_components_roundtrip (d : DatasetState)
    (hne : d.targetComponentsNames ≠ [])
    (hsorted : List.Sorted pairLe d.frame.cols)
    (hsegs : segsOf ((dropTargetComponents d).frame.cols) = segsOf d.frame.cols)
    (hsegs_ne : segsOf d.frame.cols ≠ [])
    (hnames : ∀ s ∈ segsOf d.frame.cols,
      List.insertionSort (fun (a : String) b => a ≤ b)
        (featuresOfSegment (getTargetComponents d).cols s) = d.targetComponentsNames)
    (hclose : allcloseCheck (dropTargetComponents d) (getTargetComponents d) =
      Except.ok true) :
    ∃ d2, addTargetComponents (dropTargetComponents d) (getTargetComponents d) =
        Except.ok d2 ∧
      d2.targetComponentsNames = d.targetComponentsNames ∧
      d2.frame.index = d.frame.index ∧
      d2.frame.cols = d.frame.cols ∧
      ∀ (t : Int) (c : String × String), d2.frame.data t c = d.frame.data t c := by
  obtain ⟨s0, rest, hsr⟩ : ∃ s0 rest, segsOf d.frame.cols = s0 :: rest := by
    cases h : segsOf d.frame.cols with
    | nil => exact absurd h hsegs_ne
    | cons a l => exact ⟨a, l, rfl⟩
  have hd2 := dropTargetComponents_eq d hne
  have hdrop_names : (dropTargetComponents d).targetComponentsNames = [] := by
    rw [hd2]
  have hsegs2 : segsOf ((dropTargetComponents d).frame.cols) = s0 :: rest :=
    hsegs.trans hsr
  have hnames2 : ∀ s ∈ s0 :: rest,
      List.insertionSort (fun (a : String) b => a ≤ b)
        (featuresOfSegment (getTargetComponents d).cols s) = d.targetComponentsNames := by
    intro s hs
    exact hnames s (by rw [hsr]; exact hs)
  have hok := addTargetComponents_eq (dropTargetComponents d) (getTargetComponents d)
    hdrop_names s0 rest hsegs2 d.targetComponentsNames hnames2 hclose
  refine ⟨_, hok, rfl, ?_, ?_, ?_⟩
  · rw [hd2]
  · show List.insertionSort pairLe
        ((dropTargetComponents d).frame.cols ++ (getTargetComponents d).cols) =
      d.frame.cols
    rw [hd2]
    have hperm : List.Perm
        (d.frame.cols.filter (fun c => !(d.targetComponentsNames.contains c.2)) ++
          (getTargetComponents d).cols) d.frame.cols := by
      have h0 := List.filter_append_perm
        (fun (c : String × String) => !(d.targetComponentsNames.contains c.2)) d.frame.cols
      simpa [getTargetComponents, Bool.not_not] using h0
    exact List.eq_of_perm_of_sorted ((List.perm_insertionSort pairLe _).trans hperm)
      (List.sorted_insertionSort pairLe _) hsorted
  · intro t c
    show (bif (dropTargetComponents d).frame.cols.contains c
        then (dropTargetComponents d).frame.data t c
        else (getTargetComponents d).data t c) = d.frame.data t c
    rw [hd2]
    cases hb : (List.filter (fun c => !(d.targetComponentsNames.contains c.2))
        d.frame.cols).contains c with
    | false => rfl
    | true => rfl

/-- Witness for C5 at a concrete input: one segment with a single component
equal to the target; drop followed by add restores the exact table. -/
theorem drop_add_target_components_roundtrip_witness :
    ∃ d2, addTargetComponents (dropTargetComponents sampleComponentState)
        (getTargetComponents sampleComponentState) = Except.ok d2 ∧
      d2.targetComponentsNames = sampleComponentState.targetComponentsNames ∧
      d2.frame.index = sampleComponentState.frame.index ∧
      d2.frame.cols = sampleComponentState.frame.cols ∧
      ∀ (t : Int) (c : String × String),
        d2.frame.data t c = sampleComponentState.frame.data t c :=
  drop_add_target_components_roundtrip sampleComponentState (by decide)
    (by
      refine List.sorted_cons.mpr ⟨?_, List.sorted_singleton _⟩
      intro b hb
      rw [List.mem_singleton] at hb
      subst hb
      exact Or.inr ⟨rfl, by rw [String.le_iff_toList_le]; decide⟩)
    (by rfl) (by decide) (by decide)
    (by
      norm_num +decide [allcloseCheck, trimLeadingAllNull, segsOf, uniqueKeepFirst,
        componentsSum, isCloseQ, npAtol, npRtol, getTargetComponents,
        dropTargetComponents, sampleComponentState])

end Etna
